import Mathlib

/-!
Shallow embedding of `src/app.py` (Schedule Monitoring Calculator).

Python `datetime.date` is modelled as a `(year, month, day)` record with
Python's proleptic-Gregorian `toordinal` and `weekday` (`Monday = 0`);
date comparison is lexicographic on `(year, month, day)`, exactly as
CPython compares `date` objects.  Python `datetime.time` values produced
by `strptime "%H%M"` carry only hour and minute, compared
lexicographically.  Python `float` hour totals are modelled as `ℚ`: every
reachable value is a small integral multiple of 2.0, on which float
addition is exact.  The insertion-ordered Python dict `by_day` is
modelled as an association list with insert-if-absent appends, and
`[Entry(d, by_day[d]) for d in sorted(by_day)]` as a stable sort of the
(key-distinct) association pairs by key.
-/

namespace ScheduleApp

/-- A calendar date, as Python's `datetime.date` triple. -/
structure Date where
  year : Nat
  month : Nat
  day : Nat
deriving DecidableEq, Repr

/-- A time of day as parsed by `strptime "%H%M"` (hour and minute only). -/
structure Time where
  hour : Nat
  minute : Nat
deriving DecidableEq, Repr

/-- Python `time.__le__`: lexicographic on (hour, minute). -/
def Time.leB (a b : Time) : Bool :=
  decide (a.hour < b.hour) || (decide (a.hour = b.hour) && decide (a.minute ≤ b.minute))

/-- Python `time.__lt__`: lexicographic on (hour, minute). -/
def Time.ltB (a b : Time) : Bool :=
  decide (a.hour < b.hour) || (decide (a.hour = b.hour) && decide (a.minute < b.minute))

/-- Python `date.__le__`: lexicographic on (year, month, day). -/
def Date.leB (a b : Date) : Bool :=
  decide (a.year < b.year) ||
    (decide (a.year = b.year) &&
      (decide (a.month < b.month) ||
        (decide (a.month = b.month) && decide (a.day ≤ b.day))))

/-- Python `date.__lt__`: lexicographic on (year, month, day). -/
def Date.ltB (a b : Date) : Bool :=
  decide (a.year < b.year) ||
    (decide (a.year = b.year) &&
      (decide (a.month < b.month) ||
        (decide (a.month = b.month) && decide (a.day < b.day))))

/-- Gregorian leap-year rule, as in CPython's `datetime` module. -/
def isLeap (y : Nat) : Bool :=
  y % 4 = 0 && (y % 100 ≠ 0 || y % 400 = 0)

/-- Days in a month (CPython `_days_in_month`). -/
def daysInMonth (y m : Nat) : Nat :=
  if m = 2 then (if isLeap y then 29 else 28)
  else if m = 4 ∨ m = 6 ∨ m = 9 ∨ m = 11 then 30
  else 31

/-- Days in the months strictly before month `m` of year `y`
(CPython `_days_before_month`). -/
def daysBeforeMonth (y m : Nat) : Nat :=
  ((List.range (m - 1)).map (fun i => daysInMonth y (i + 1))).sum

/-- Python `date.toordinal`: day number in the proleptic Gregorian
calendar, with `0001-01-01` having ordinal 1. -/
def Date.toOrdinal (dt : Date) : Nat :=
  ((365 * (dt.year - 1) + (dt.year - 1) / 4 + (dt.year - 1) / 400)
      - (dt.year - 1) / 100)
    + daysBeforeMonth dt.year dt.month + dt.day

/-- Python `date.weekday`: Monday is 0 through Sunday 6. -/
def Date.weekday (dt : Date) : Nat :=
  (dt.toOrdinal + 6) % 7

/-- Embeds `WEEKDAY_START = time(8, 0)` from `src/app.py`. -/
def WEEKDAY_START : Time := ⟨8, 0⟩

/-- Embeds `WEEKDAY_END = time(17, 0)` from `src/app.py`. -/
def WEEKDAY_END : Time := ⟨17, 0⟩

/-- Embeds `is_weekday` from `src/app.py`. -/
def is_weekday (d : Date) : Bool :=
  d.weekday < 5

/-- Embeds `is_normal_window` from `src/app.py`. -/
def is_normal_window (d : Date) (t : Option Time) : Bool :=
  if ¬ is_weekday d then false
  else
    match t with
    | none => true
    | some t => Time.leB WEEKDAY_START t && Time.ltB t WEEKDAY_END

/-- Embeds `base_hours` from `src/app.py`. -/
def base_hours (is_first is_last : Bool) : ℚ :=
  if is_first || is_last then 4 else 2

/-- Embeds the frozen dataclass `Entry` from `src/app.py`. -/
structure Entry where
  d : Date
  t : Option Time
deriving DecidableEq, Repr

/-- In-range test `start_date <= d <= end_date` from line 38 of `src/app.py`. -/
def inRange (start_date end_date d : Date) : Bool :=
  Date.leB start_date d && Date.leB d end_date

/-- One step of building the dict `by_day`: the body of the loop on
lines 37-39 of `src/app.py`, on the association-list model of the
insertion-ordered dict (`d not in by_day` is insert-if-absent). -/
def insertByDay (start_date end_date : Date) (by_day : List (Date × Option Time))
    (p : Date × Option Time) : List (Date × Option Time) :=
  if inRange start_date end_date p.1 && !(by_day.any fun q => decide (q.1 = p.1)) then
    by_day ++ [p]
  else
    by_day

/-- The dict `by_day` after the loop on lines 36-39 of `src/app.py`. -/
def buildByDay (start_date end_date : Date)
    (monitored_entries : List (Date × Option Time)) : List (Date × Option Time) :=
  monitored_entries.foldl (insertByDay start_date end_date) []

/-- Key order used by `sorted(by_day)`. -/
def keyLe (a b : Date × Option Time) : Prop :=
  Date.leB a.1 b.1 = true

instance : DecidableRel keyLe := fun _ _ => inferInstanceAs (Decidable (_ = true))

/-- Line 40 of `src/app.py`:
`self.entries = [Entry(d, by_day[d]) for d in sorted(by_day)]`, modelled
as a stable sort of the dict's (key-distinct) association pairs by key. -/
def entriesOf (start_date end_date : Date)
    (monitored_entries : List (Date × Option Time)) : List Entry :=
  (List.insertionSort keyLe (buildByDay start_date end_date monitored_entries)).map
    fun p => ⟨p.1, p.2⟩

/-- Embeds the `Schedule` class state from `src/app.py`. -/
structure Schedule where
  start_date : Date
  end_date : Date
  entries : List Entry
deriving DecidableEq, Repr

/-- Embeds `Schedule.__init__` (lines 30-40 of `src/app.py`); the
`ValueError` raise is modelled as `Except.error`. -/
def Schedule.init (start_date end_date : Date)
    (monitored_entries : List (Date × Option Time)) : Except String Schedule :=
  if Date.ltB end_date start_date then
    Except.error "end_date must be >= start_date"
  else
    Except.ok ⟨start_date, end_date, entriesOf start_date end_date monitored_entries⟩

/-- Embeds `Schedule.dry_time`; `(end_date - start_date).days` is the
ordinal difference, an `Int`. -/
def Schedule.dry_time (s : Schedule) : Int :=
  max ((s.end_date.toOrdinal : Int) - (s.start_date.toOrdinal : Int)) 0

/-- Embeds `Schedule._split_hours` (lines 45-57 of `src/app.py`). -/
def Schedule.split_hours (s : Schedule) : ℚ × ℚ :=
  match s.entries with
  | [] => (0, 0)
  | e0 :: rest =>
    let first_day := e0.d
    let last_day := (rest.getLastD e0).d
    (e0 :: rest).foldl
      (fun acc e =>
        let hrs := base_hours (decide (e.d = first_day)) (decide (e.d = last_day))
        if is_normal_window e.d e.t then (acc.1 + hrs, acc.2) else (acc.1, acc.2 + hrs))
      (0, 0)

/-- Embeds `Schedule.monitoring_hours`. -/
def Schedule.monitoring_hours (s : Schedule) : ℚ :=
  s.split_hours.1

/-- Embeds `Schedule.after_hours`. -/
def Schedule.after_hours (s : Schedule) : ℚ :=
  s.split_hours.2

/-- Embeds `Schedule.total_monitoring_hours`. -/
def Schedule.total_monitoring_hours (s : Schedule) : ℚ :=
  s.split_hours.1 + s.split_hours.2

/-- Python `str.strip()` on the character list (whitespace at both ends). -/
def pyStrip (cs : List Char) : List Char :=
  ((cs.dropWhile Char.isWhitespace).reverse.dropWhile Char.isWhitespace).reverse

/-- Auxiliary for `pySplit`; `acc` is the current word, reversed. -/
def pySplitAux : List Char → List Char → List (List Char)
  | [], acc => if acc = [] then [] else [acc.reverse]
  | c :: rest, acc =>
    if c.isWhitespace then
      if acc = [] then pySplitAux rest [] else acc.reverse :: pySplitAux rest []
    else
      pySplitAux rest (c :: acc)

/-- Python `str.split()` with no argument: split on whitespace runs,
dropping empty parts. -/
def pySplit (cs : List Char) : List (List Char) :=
  pySplitAux cs []

/-- Numeric value of a digit character. -/
def digitVal (c : Char) : Nat :=
  c.toNat - 48

/-- Auxiliary for `splitSlash`; `acc` is the current component, reversed. -/
def splitSlashAux : List Char → List Char → List (List Char)
  | [], acc => [acc.reverse]
  | c :: rest, acc =>
    if c = '/' then acc.reverse :: splitSlashAux rest []
    else splitSlashAux rest (c :: acc)

/-- Split on the literal `/` separators of the `%m/%d/%Y` format,
keeping empty components. -/
def splitSlash (cs : List Char) : List (List Char) :=
  splitSlashAux cs []

/-- CPython strptime component regex for `%m`: `1[0-2]|0[1-9]|[1-9]`,
matched against a whole slash-delimited component. -/
def matchMonth (cs : List Char) : Option Nat :=
  match cs with
  | [a] => if a.isDigit ∧ 1 ≤ digitVal a then some (digitVal a) else none
  | [a, b] =>
    if (a = '1' ∧ b.isDigit ∧ digitVal b ≤ 2) ∨ (a = '0' ∧ b.isDigit ∧ 1 ≤ digitVal b) then
      some (digitVal a * 10 + digitVal b)
    else none
  | _ => none

/-- CPython strptime component regex for `%d`:
`3[01]|[12]\x5cd|0[1-9]|[1-9]`, matched against a whole component. -/
def matchDay (cs : List Char) : Option Nat :=
  match cs with
  | [a] => if a.isDigit ∧ 1 ≤ digitVal a then some (digitVal a) else none
  | [a, b] =>
    if (a = '3' ∧ (b = '0' ∨ b = '1')) ∨ ((a = '1' ∨ a = '2') ∧ b.isDigit) ∨
        (a = '0' ∧ b.isDigit ∧ 1 ≤ digitVal b) then
      some (digitVal a * 10 + digitVal b)
    else none
  | _ => none

/-- CPython strptime component regex for `%Y`: exactly four digits. -/
def matchYear (cs : List Char) : Option Nat :=
  match cs with
  | [a, b, c, e] =>
    if a.isDigit ∧ b.isDigit ∧ c.isDigit ∧ e.isDigit then
      some (((digitVal a * 10 + digitVal b) * 10 + digitVal c) * 10 + digitVal e)
    else none
  | _ => none

/-- Models `datetime.strptime(s, "%m/%d/%Y").date()`: the anchored full
match of the format regex, then `date` constructor validation (year at
least `MINYEAR = 1`, day within the month's length). -/
def strptimeDate (cs : List Char) : Option Date :=
  match splitSlash cs with
  | [ms, ds, ys] =>
    match matchMonth ms, matchDay ds, matchYear ys with
    | some m, some d, some y =>
      if 1 ≤ y ∧ d ≤ daysInMonth y m then some ⟨y, m, d⟩ else none
    | _, _, _ => none
  | _ => none

/-- Regex alternatives for `%H` (`2[0-3]|[0-1]\x5cd|\x5cd`) in
alternation order, each with the remaining input. -/
def hourCands : List Char → List (Nat × List Char)
  | a :: b :: rest =>
    (if a = '2' ∧ b.isDigit ∧ digitVal b ≤ 3 then [(20 + digitVal b, rest)] else []) ++
      (if (a = '0' ∨ a = '1') ∧ b.isDigit then [(digitVal a * 10 + digitVal b, rest)] else []) ++
      (if a.isDigit then [(digitVal a, b :: rest)] else [])
  | [a] => if a.isDigit then [(digitVal a, [])] else []
  | [] => []

/-- Regex alternatives for `%M` (`[0-5]\x5cd|\x5cd`) in alternation
order, each with the remaining input. -/
def minuteCands : List Char → List (Nat × List Char)
  | a :: b :: rest =>
    (if a.isDigit ∧ digitVal a ≤ 5 ∧ b.isDigit then [(digitVal a * 10 + digitVal b, rest)] else []) ++
      (if a.isDigit then [(digitVal a, b :: rest)] else [])
  | [a] => if a.isDigit then [(digitVal a, [])] else []
  | [] => []

/-- Models `datetime.strptime(s, "%H%M").time()`: backtracking match of
`%H` then `%M`, anchored and consuming the whole string. -/
def strptimeTime (cs : List Char) : Option Time :=
  ((hourCands cs).flatMap fun hc =>
    (minuteCands hc.2).filterMap fun mc =>
      if mc.2 = [] then some (⟨hc.1, mc.1⟩ : Time) else none).head?

/-- Embeds `parse_date_time` from `src/app.py` (lines 69-86); the Python
triple return `(d, t, err)` becomes a nested pair of options. -/
def parse_date_time (entry_str : String) : Option Date × Option Time × Option String :=
  let s := pyStrip entry_str.data
  if s = [] then (none, none, some "Empty entry")
  else
    let parts := pySplit s
    let p0 := parts.headD []
    match strptimeDate p0 with
    | none => (none, none, some ("Invalid date '" ++ String.mk p0 ++ "'. Use MM/DD/YYYY."))
    | some d =>
      if parts.length = 2 then
        let p1 := parts.getD 1 []
        match strptimeTime p1 with
        | none => (none, none, some ("Invalid time '" ++ String.mk p1 ++ "'. Use HHMM (24h)."))
        | some t => (some d, some t, none)
      else if parts.length > 2 then
        (none, none, some ("Bad entry '" ++ String.mk s ++ "'. Use 'MM/DD/YYYY [HHMM]'."))
      else
        (some d, none, none)

/-- Keys of the association-list model of `by_day`. -/
def keys (l : List (Date × Option Time)) : List Date :=
  l.map Prod.fst

/-- The per-entry hour weight computed on line 52 of `src/app.py`. -/
def weightOf (first_day last_day : Date) (e : Entry) : ℚ :=
  base_hours (decide (e.d = first_day)) (decide (e.d = last_day))

/-- Sum of the per-entry hour weights over a list of entries. -/
def sumWeights (first_day last_day : Date) (l : List Entry) : ℚ :=
  (l.map (weightOf first_day last_day)).sum

/-- The base-hour weights of the stored entries, in order, relative to
the first and last stored days. -/
def entryWeights : List Entry → List ℚ
  | [] => []
  | e0 :: rest => (e0 :: rest).map (weightOf e0.d (rest.getLastD e0).d)

instance : IsTotal (Date × Option Time) keyLe :=
  ⟨fun a b => by
    simp only [keyLe, Date.leB, Bool.or_eq_true, Bool.and_eq_true, decide_eq_true_eq]
    omega⟩

instance : IsTrans (Date × Option Time) keyLe :=
  ⟨fun a b c hab hbc => by
    simp only [keyLe, Date.leB, Bool.or_eq_true, Bool.and_eq_true,
      decide_eq_true_eq] at hab hbc ⊢
    omega⟩

/-- Unfolded arithmetic meaning of `Date.leB`. -/
lemma Date.leB_iff (a b : Date) :
    Date.leB a b = true ↔
      (a.year < b.year ∨ (a.year = b.year ∧
        (a.month < b.month ∨ (a.month = b.month ∧ a.day ≤ b.day)))) := by
  simp [Date.leB]

/-- Unfolded arithmetic meaning of `Date.ltB`. -/
lemma Date.ltB_iff (a b : Date) :
    Date.ltB a b = true ↔
      (a.year < b.year ∨ (a.year = b.year ∧
        (a.month < b.month ∨ (a.month = b.month ∧ a.day < b.day)))) := by
  simp [Date.ltB]

/-- Distinct dates that compare `leB` compare strictly. -/
lemma Date.ltB_of_leB_ne {a b : Date} (h1 : Date.leB a b = true) (h2 : a ≠ b) :
    Date.ltB a b = true := by
  rcases a with ⟨y1, m1, d1⟩
  rcases b with ⟨y2, m2, d2⟩
  simp only [Date.leB, Bool.or_eq_true, Bool.and_eq_true, decide_eq_true_eq] at h1
  simp only [Date.ltB, Bool.or_eq_true, Bool.and_eq_true, decide_eq_true_eq]
  simp only [ne_eq, Date.mk.injEq] at h2
  omega

/-- Inserted keys that were absent stay absent from the old keys. -/
lemma keys_sub_insertByDay (sd ed : Date) (acc : List (Date × Option Time))
    (p : Date × Option Time) : keys acc ⊆ keys (insertByDay sd ed acc p) := by
  unfold insertByDay
  split
  · intro x hx
    simp only [keys, List.map_append, List.mem_append]
    exact Or.inl hx
  · exact fun _ hx => hx

/-- An in-range date is among the keys after its pair is offered. -/
lemma mem_keys_insertByDay (sd ed : Date) (acc : List (Date × Option Time))
    (m : Date × Option Time) (hr : inRange sd ed m.1 = true) :
    m.1 ∈ keys (insertByDay sd ed acc m) := by
  unfold insertByDay
  split
  · simp [keys]
  · rename_i hg
    simp only [Bool.and_eq_true, Bool.not_eq_true', not_and] at hg
    have hany : acc.any (fun q => decide (q.1 = m.1)) = true := by
      by_contra hno
      exact hg hr (Bool.eq_false_iff.mpr hno)
    rw [List.any_eq_true] at hany
    obtain ⟨q, hq, hq1⟩ := hany
    rw [decide_eq_true_eq] at hq1
    exact List.mem_map.mpr ⟨q, hq, hq1⟩

/-- Inserting preserves distinctness of the dict keys. -/
lemma nodupKeys_insertByDay (sd ed : Date) (acc : List (Date × Option Time))
    (p : Date × Option Time) (h : (keys acc).Nodup) :
    (keys (insertByDay sd ed acc p)).Nodup := by
  unfold insertByDay
  split
  · rename_i hg
    simp only [Bool.and_eq_true, Bool.not_eq_true', List.any_eq_false,
      decide_eq_true_eq] at hg
    simp only [keys, List.map_append, List.map_cons, List.map_nil]
    rw [List.nodup_append]
    refine ⟨h, List.nodup_singleton _, ?_⟩
    intro x hx
    simp only [keys, List.mem_map] at hx
    obtain ⟨q, hq, rfl⟩ := hx
    simp only [List.mem_singleton]
    exact hg.2 q hq
  · exact h

/-- The dict keys stay distinct through the whole construction loop. -/
lemma nodupKeys_foldl (sd ed : Date) :
    ∀ (ms acc : List (Date × Option Time)), (keys acc).Nodup →
      (keys (ms.foldl (insertByDay sd ed) acc)).Nodup := by
  intro ms
  induction ms with
  | nil => intro acc h; simpa using h
  | cons m rest ih =>
    intro acc h
    exact ih _ (nodupKeys_insertByDay sd ed acc m h)

/-- The keys of `by_day` are distinct. -/
lemma nodupKeys_buildByDay (sd ed : Date) (ms : List (Date × Option Time)) :
    (keys (buildByDay sd ed ms)).Nodup :=
  nodupKeys_foldl sd ed ms [] (by simp [keys])

/-- A pair surviving the loop either was already present or is the first
pair of its date in the processed list, and its date is in range. -/
lemma mem_foldl_insertByDay (sd ed : Date) :
    ∀ (ms acc : List (Date × Option Time)) (p : Date × Option Time),
      p ∈ ms.foldl (insertByDay sd ed) acc →
      p ∈ acc ∨ (p.1 ∉ keys acc ∧ inRange sd ed p.1 = true ∧
        ms.find? (fun q => decide (q.1 = p.1)) = some p) := by
  intro ms
  induction ms with
  | nil => intro acc p h; exact Or.inl (by simpa using h)
  | cons m rest ih =>
    intro acc p h
    simp only [List.foldl_cons] at h
    rcases ih (insertByDay sd ed acc m) p h with hin | ⟨hk, hr, hf⟩
    · unfold insertByDay at hin
      split at hin
      · rename_i hg
        simp only [Bool.and_eq_true, Bool.not_eq_true', List.any_eq_false,
          decide_eq_true_eq] at hg
        rcases List.mem_append.mp hin with hacc | hm
        · exact Or.inl hacc
        · simp only [List.mem_singleton] at hm
          subst hm
          refine Or.inr ⟨?_, hg.1, ?_⟩
          · intro hkey
            simp only [keys, List.mem_map] at hkey
            obtain ⟨q, hq, hq1⟩ := hkey
            exact hg.2 q hq hq1
          · rw [List.find?_cons_of_pos _ (by simp)]
      · exact Or.inl hin
    · have hm1 : m.1 ≠ p.1 := by
        intro hmp
        by_cases hrm : inRange sd ed m.1 = true
        · exact hk (hmp ▸ mem_keys_insertByDay sd ed acc m hrm)
        · rw [hmp] at hrm
          exact hrm hr
      refine Or.inr ⟨fun hkey => hk (keys_sub_insertByDay sd ed acc m hkey), hr, ?_⟩
      rw [List.find?_cons_of_neg _ (by simpa using hm1)]
      exact hf

/-- Every pair of `by_day` is in range and is the first pair of its date
in the input list. -/
lemma mem_buildByDay {sd ed : Date} {ms : List (Date × Option Time)}
    {p : Date × Option Time} (h : p ∈ buildByDay sd ed ms) :
    inRange sd ed p.1 = true ∧ ms.find? (fun q => decide (q.1 = p.1)) = some p := by
  rcases mem_foldl_insertByDay sd ed ms [] p h with hin | ⟨_, hr, hf⟩
  · simp at hin
  · exact ⟨hr, hf⟩

/-- An entry of a schedule corresponds to its pair in `by_day`. -/
lemma mem_entriesOf {sd ed : Date} {ms : List (Date × Option Time)} {e : Entry}
    (he : e ∈ entriesOf sd ed ms) :
    (e.d, e.t) ∈ buildByDay sd ed ms := by
  unfold entriesOf at he
  rw [List.mem_map] at he
  obtain ⟨p, hp, rfl⟩ := he
  simpa using (List.perm_insertionSort keyLe (buildByDay sd ed ms)).mem_iff.mp hp

/-- The keys of the sorted association list are still distinct. -/
lemma nodupKeys_sorted (sd ed : Date) (ms : List (Date × Option Time)) :
    ((List.insertionSort keyLe (buildByDay sd ed ms)).map Prod.fst).Nodup := by
  have hperm : List.Perm
      ((List.insertionSort keyLe (buildByDay sd ed ms)).map Prod.fst)
      ((buildByDay sd ed ms).map Prod.fst) :=
    (List.perm_insertionSort keyLe (buildByDay sd ed ms)).map Prod.fst
  exact hperm.nodup_iff.mpr (nodupKeys_buildByDay sd ed ms)

/-- The dates of the stored entries are distinct. -/
lemma nodup_entriesOf_dates (sd ed : Date) (ms : List (Date × Option Time)) :
    ((entriesOf sd ed ms).map Entry.d).Nodup := by
  unfold entriesOf
  rw [List.map_map]
  have hcomp : (Entry.d ∘ fun p : Date × Option Time => Entry.mk p.1 p.2) = Prod.fst := by
    funext p; rfl
  rw [hcomp]
  exact nodupKeys_sorted sd ed ms

/-- The stored entries are strictly ascending by date. -/
lemma pairwise_entriesOf (sd ed : Date) (ms : List (Date × Option Time)) :
    (entriesOf sd ed ms).Pairwise (fun a b => Date.ltB a.d b.d = true) := by
  have hsorted : (List.insertionSort keyLe (buildByDay sd ed ms)).Pairwise keyLe :=
    List.sorted_insertionSort keyLe (buildByDay sd ed ms)
  have hnd : (List.insertionSort keyLe (buildByDay sd ed ms)).Pairwise
      (fun a b => a.1 ≠ b.1) := by
    rw [← List.pairwise_map]
    exact nodupKeys_sorted sd ed ms
  unfold entriesOf
  rw [List.pairwise_map]
  exact (hsorted.and hnd).imp fun hab => Date.ltB_of_leB_ne hab.1 hab.2

/-- The accumulation loop of `_split_hours` computes the two filtered
weight sums. -/
lemma split_foldl (fd ld : Date) :
    ∀ (l : List Entry) (a b : ℚ),
      l.foldl
        (fun acc e =>
          let hrs := base_hours (decide (e.d = fd)) (decide (e.d = ld))
          if is_normal_window e.d e.t then (acc.1 + hrs, acc.2) else (acc.1, acc.2 + hrs))
        (a, b)
      = (a + sumWeights fd ld (l.filter fun e => is_normal_window e.d e.t),
         b + sumWeights fd ld (l.filter fun e => !(is_normal_window e.d e.t))) := by
  intro l
  induction l with
  | nil => intro a b; simp [sumWeights]
  | cons e rest ih =>
    intro a b
    by_cases h : is_normal_window e.d e.t = true
    · simp [List.foldl_cons, List.filter_cons, h, ih, sumWeights, weightOf,
        Prod.mk.injEq]
      ring
    · rw [Bool.not_eq_true] at h
      simp [List.foldl_cons, List.filter_cons, h, ih, sumWeights, weightOf,
        Prod.mk.injEq]
      ring

/-- `_split_hours` in closed form: the filtered weight sums relative to
the first and last stored days. -/
lemma split_hours_eq (s : Schedule) (e0 : Entry) (rest : List Entry)
    (h : s.entries = e0 :: rest) :
    s.split_hours =
      (sumWeights e0.d (rest.getLastD e0).d
        ((e0 :: rest).filter fun e => is_normal_window e.d e.t),
       sumWeights e0.d (rest.getLastD e0).d
        ((e0 :: rest).filter fun e => !(is_normal_window e.d e.t))) := by
  have h2 : s.split_hours =
      (e0 :: rest).foldl
        (fun acc e =>
          let hrs := base_hours (decide (e.d = e0.d)) (decide (e.d = (rest.getLastD e0).d))
          if is_normal_window e.d e.t then (acc.1 + hrs, acc.2) else (acc.1, acc.2 + hrs))
        (0, 0) := by
    unfold Schedule.split_hours
    rw [h]
  rw [h2, split_foldl]
  simp

/-- Splitting a weight sum along a filter and its complement. -/
lemma sumWeights_filter_add (fd ld : Date) (p : Entry → Bool) (l : List Entry) :
    sumWeights fd ld (l.filter p) + sumWeights fd ld (l.filter fun e => !(p e))
      = sumWeights fd ld l := by
  induction l with
  | nil => simp [sumWeights]
  | cons e rest ih =>
    by_cases h : p e = true
    · simp [List.filter_cons, h, sumWeights] at *
      linarith
    · rw [Bool.not_eq_true] at h
      simp [List.filter_cons, h, sumWeights] at *
      linarith

/-- Every per-entry weight is non-negative. -/
lemma weightOf_nonneg (fd ld : Date) (e : Entry) : 0 ≤ weightOf fd ld e := by
  unfold weightOf base_hours
  split <;> norm_num

/-- Weight sums are non-negative. -/
lemma sumWeights_nonneg (fd ld : Date) (l : List Entry) : 0 ≤ sumWeights fd ld l := by
  unfold sumWeights
  refine List.sum_nonneg ?_
  intro x hx
  rw [List.mem_map] at hx
  obtain ⟨e, _, rfl⟩ := hx
  exact weightOf_nonneg fd ld e

/-- A weight sum over entries that all weigh 2 is twice the length. -/
lemma sumWeights_of_middle (fd ld : Date) (l : List Entry)
    (h : ∀ e ∈ l, e.d ≠ fd ∧ e.d ≠ ld) :
    sumWeights fd ld l = 2 * l.length := by
  induction l with
  | nil => simp [sumWeights]
  | cons e rest ih =>
    have he := h e (List.mem_cons_self e rest)
    have hw : weightOf fd ld e = 2 := by
      unfold weightOf base_hours
      rw [if_neg]
      simp only [Bool.or_eq_true, decide_eq_true_eq]
      tauto
    simp only [sumWeights, List.map_cons, List.sum_cons, List.length_cons] at *
    rw [hw, ih (fun e' he' => h e' (List.mem_cons_of_mem e he'))]
    push_cast
    ring

/-- Total hours of a non-empty schedule are the sum of all per-entry
weights. -/
lemma total_eq_sumWeights (s : Schedule) (e0 : Entry) (rest : List Entry)
    (hl : s.entries = e0 :: rest) :
    s.total_monitoring_hours = sumWeights e0.d (rest.getLastD e0).d (e0 :: rest) := by
  unfold Schedule.total_monitoring_hours
  rw [split_hours_eq s e0 rest hl]
  exact sumWeights_filter_add _ _ _ _

/-- A single stored entry weighs exactly 4. -/
lemma sumWeights_single (e0 : Entry) :
    sumWeights e0.d e0.d [e0] = 4 := by
  simp [sumWeights, weightOf, base_hours]

/-- With at least two distinct-dated entries, the weights add up to
twice the count plus four. -/
lemma sumWeights_multi (e0 : Entry) (rest : List Entry) (hne : rest ≠ [])
    (hnd : ((e0 :: rest).map Entry.d).Nodup) :
    sumWeights e0.d ((rest.getLastD e0).d) (e0 :: rest)
      = 2 * ((e0 :: rest).length : ℚ) + 4 := by
  obtain ⟨mid, el, rfl⟩ := (List.eq_nil_or_concat rest).resolve_left hne
  rw [List.concat_eq_append] at *
  rw [List.getLastD_concat]
  have hd0 : e0.d ∉ (mid ++ [el]).map Entry.d ∧ ((mid ++ [el]).map Entry.d).Nodup := by
    rw [List.map_cons, List.nodup_cons] at hnd
    exact hnd
  have hmidl : (mid.map Entry.d).Nodup ∧ el.d ∉ mid.map Entry.d := by
    have h2 := hd0.2
    rw [List.map_append, List.nodup_append] at h2
    refine ⟨h2.1, fun hm => ?_⟩
    exact h2.2.2 hm (by simp)
  have hmid : ∀ e ∈ mid, e.d ≠ e0.d ∧ e.d ≠ el.d := by
    intro e he
    constructor
    · intro hd
      exact hd0.1 (by
        rw [List.map_append, List.mem_append]
        exact Or.inl (hd ▸ List.mem_map_of_mem Entry.d he))
    · intro hd
      exact hmidl.2 (hd ▸ List.mem_map_of_mem Entry.d he)
  have hw0 : weightOf e0.d el.d e0 = 4 := by
    simp [weightOf, base_hours]
  have hwl : weightOf e0.d el.d el = 4 := by
    unfold weightOf base_hours
    rw [if_pos]
    simp
  have hmidsum : sumWeights e0.d el.d mid = 2 * (mid.length : ℚ) :=
    sumWeights_of_middle e0.d el.d mid hmid
  simp only [sumWeights, List.map_cons, List.sum_cons, List.map_append,
    List.sum_append, List.map_nil, List.sum_nil, List.length_cons,
    List.length_append, List.length_nil] at *
  rw [hw0, hwl, hmidsum]
  push_cast
  ring

/-- Unpacks a successful `Schedule.init`. -/
lemma init_ok {sd ed : Date} {ms : List (Date × Option Time)} {s : Schedule}
    (h : Schedule.init sd ed ms = Except.ok s) :
    s.start_date = sd ∧ s.end_date = ed ∧ s.entries = entriesOf sd ed ms := by
  unfold Schedule.init at h
  split at h
  · cases h
  · cases h
    exact ⟨rfl, rfl, rfl⟩

/-- On a weekday, a timed entry is normal exactly when its minute count
lies in the window `[480, 1020)` (that is, `08:00 <= t < 17:00`). -/
lemma is_normal_window_some_iff (d : Date) (t : Time) (hm : t.minute < 60)
    (h5 : is_weekday d = true) :
    is_normal_window d (some t) = true ↔
      480 ≤ 60 * t.hour + t.minute ∧ 60 * t.hour + t.minute < 1020 := by
  simp only [is_normal_window, h5, not_true, if_neg, not_false_iff, Bool.and_eq_true,
    Bool.or_eq_true, decide_eq_true_eq, Time.leB, Time.ltB, WEEKDAY_START, WEEKDAY_END]
  omega

/-- C1: at the spec's example (start `09/18/2025`, end `09/20/2025`,
entries `09/18 07:00`, `09/19 18:00`, `09/20` with no time), the code
does NOT produce `monitoring_hours = 4.0` and `after_hours = 6.0`:
`09/20/2025` is a Saturday (`weekday = 5`), so the last entry is
after-hours, and `monitoring_hours` is `0.0`. -/
theorem C1_example_counterexample :
    Schedule.init ⟨2025, 9, 18⟩ ⟨2025, 9, 20⟩
        [(⟨2025, 9, 18⟩, some ⟨7, 0⟩), (⟨2025, 9, 19⟩, some ⟨18, 0⟩), (⟨2025, 9, 20⟩, none)]
      = Except.ok ⟨⟨2025, 9, 18⟩, ⟨2025, 9, 20⟩,
          [⟨⟨2025, 9, 18⟩, some ⟨7, 0⟩⟩, ⟨⟨2025, 9, 19⟩, some ⟨18, 0⟩⟩,
            ⟨⟨2025, 9, 20⟩, none⟩]⟩ ∧
    (⟨⟨2025, 9, 18⟩, ⟨2025, 9, 20⟩,
        [⟨⟨2025, 9, 18⟩, some ⟨7, 0⟩⟩, ⟨⟨2025, 9, 19⟩, some ⟨18, 0⟩⟩,
          ⟨⟨2025, 9, 20⟩, none⟩]⟩ : Schedule).monitoring_hours ≠ 4 ∧
    (⟨⟨2025, 9, 18⟩, ⟨2025, 9, 20⟩,
        [⟨⟨2025, 9, 18⟩, some ⟨7, 0⟩⟩, ⟨⟨2025, 9, 19⟩, some ⟨18, 0⟩⟩,
          ⟨⟨2025, 9, 20⟩, none⟩]⟩ : Schedule).after_hours ≠ 6 ∧
    (⟨2025, 9, 20⟩ : Date).weekday = 5 ∧
    is_normal_window ⟨2025, 9, 20⟩ none = false := by
  refine ⟨rfl, ?_, ?_, by decide, by decide⟩ <;>
  · simp only [Schedule.monitoring_hours, Schedule.after_hours, Schedule.split_hours]
    norm_num [base_hours, is_normal_window, is_weekday, Date.weekday, Date.toOrdinal,
      daysBeforeMonth, daysInMonth, isLeap, Time.leB, Time.ltB, WEEKDAY_START,
      WEEKDAY_END, List.foldl, List.getLastD, List.range, List.range.loop]

/-- C1 (amended): at the spec's example the constructed schedule yields
`monitoring_hours = 0.0`, `after_hours = 10.0`,
`total_monitoring_hours = 10.0`, `dry_time = 2`, and all three entries
(including the last, a Saturday) are classified after-hours. -/
theorem C1_example_amended :
    Schedule.init ⟨2025, 9, 18⟩ ⟨2025, 9, 20⟩
        [(⟨2025, 9, 18⟩, some ⟨7, 0⟩), (⟨2025, 9, 19⟩, some ⟨18, 0⟩), (⟨2025, 9, 20⟩, none)]
      = Except.ok ⟨⟨2025, 9, 18⟩, ⟨2025, 9, 20⟩,
          [⟨⟨2025, 9, 18⟩, some ⟨7, 0⟩⟩, ⟨⟨2025, 9, 19⟩, some ⟨18, 0⟩⟩,
            ⟨⟨2025, 9, 20⟩, none⟩]⟩ ∧
    (⟨⟨2025, 9, 18⟩, ⟨2025, 9, 20⟩,
        [⟨⟨2025, 9, 18⟩, some ⟨7, 0⟩⟩, ⟨⟨2025, 9, 19⟩, some ⟨18, 0⟩⟩,
          ⟨⟨2025, 9, 20⟩, none⟩]⟩ : Schedule).monitoring_hours = 0 ∧
    (⟨⟨2025, 9, 18⟩, ⟨2025, 9, 20⟩,
        [⟨⟨2025, 9, 18⟩, some ⟨7, 0⟩⟩, ⟨⟨2025, 9, 19⟩, some ⟨18, 0⟩⟩,
          ⟨⟨2025, 9, 20⟩, none⟩]⟩ : Schedule).after_hours = 10 ∧
    (⟨⟨2025, 9, 18⟩, ⟨2025, 9, 20⟩,
        [⟨⟨2025, 9, 18⟩, some ⟨7, 0⟩⟩, ⟨⟨2025, 9, 19⟩, some ⟨18, 0⟩⟩,
          ⟨⟨2025, 9, 20⟩, none⟩]⟩ : Schedule).total_monitoring_hours = 10 ∧
    (⟨⟨2025, 9, 18⟩, ⟨2025, 9, 20⟩,
        [⟨⟨2025, 9, 18⟩, some ⟨7, 0⟩⟩, ⟨⟨2025, 9, 19⟩, some ⟨18, 0⟩⟩,
          ⟨⟨2025, 9, 20⟩, none⟩]⟩ : Schedule).dry_time = 2 ∧
    ([⟨⟨2025, 9, 18⟩, some ⟨7, 0⟩⟩, ⟨⟨2025, 9, 19⟩, some ⟨18, 0⟩⟩,
        ⟨⟨2025, 9, 20⟩, none⟩] : List Entry).map (fun e => is_normal_window e.d e.t)
      = [false, false, false] := by
  refine ⟨rfl, ?_, ?_, ?_, by decide, by decide⟩ <;>
  · simp only [Schedule.monitoring_hours, Schedule.after_hours,
      Schedule.total_monitoring_hours, Schedule.split_hours]
    norm_num [base_hours, is_normal_window, is_weekday, Date.weekday, Date.toOrdinal,
      daysBeforeMonth, daysInMonth, isLeap, Time.leB, Time.ltB, WEEKDAY_START,
      WEEKDAY_END, List.foldl, List.getLastD, List.range, List.range.loop]

/-- C2: an entry on a Saturday or Sunday is always after-hours; on a
weekday, a no-time entry is normal, and a timed entry (with a valid
minute) is normal exactly when `08:00 <= t < 17:00`, so `08:00` is
normal while `17:00` and `07:59` are after-hours. -/
theorem C2_classification (d : Date) (t : Time) (hm : t.minute < 60) :
    ((d.weekday = 5 ∨ d.weekday = 6) →
      is_normal_window d none = false ∧ is_normal_window d (some t) = false) ∧
    (¬(d.weekday = 5 ∨ d.weekday = 6) →
      is_normal_window d none = true ∧
      (is_normal_window d (some t) = true ↔
        480 ≤ 60 * t.hour + t.minute ∧ 60 * t.hour + t.minute < 1020) ∧
      is_normal_window d (some ⟨8, 0⟩) = true ∧
      is_normal_window d (some ⟨17, 0⟩) = false ∧
      is_normal_window d (some ⟨7, 59⟩) = false) := by
  have hwk : d.weekday < 7 := Nat.mod_lt _ (by norm_num)
  constructor
  · intro h
    have h5 : is_weekday d = false := by
      unfold is_weekday
      simp only [decide_eq_false_iff_not]
      omega
    exact ⟨by simp [is_normal_window, h5], by simp [is_normal_window, h5]⟩
  · intro h
    have h5 : is_weekday d = true := by
      unfold is_weekday
      simp only [decide_eq_true_eq]
      omega
    refine ⟨by simp [is_normal_window, h5], is_normal_window_some_iff d t hm h5, ?_, ?_, ?_⟩
    · exact (is_normal_window_some_iff d ⟨8, 0⟩ (by norm_num) h5).mpr (by norm_num)
    · exact Bool.eq_false_iff.mpr fun hc =>
        absurd ((is_normal_window_some_iff d ⟨17, 0⟩ (by norm_num) h5).mp hc) (by norm_num)
    · exact Bool.eq_false_iff.mpr fun hc =>
        absurd ((is_normal_window_some_iff d ⟨7, 59⟩ (by norm_num) h5).mp hc) (by norm_num)

/-- C2 witness: `09/20/2025` is a Saturday and is classified
after-hours even at 10:00; `09/18/2025` is a weekday and `07:59` is
after-hours there. -/
theorem C2_classification_witness :
    is_normal_window ⟨2025, 9, 20⟩ (some ⟨10, 0⟩) = false ∧
    is_normal_window ⟨2025, 9, 18⟩ (some ⟨7, 59⟩) = false :=
  ⟨((C2_classification ⟨2025, 9, 20⟩ ⟨10, 0⟩ (by decide)).1 (by decide)).2,
    ((C2_classification ⟨2025, 9, 18⟩ ⟨7, 59⟩ (by decide)).2 (by decide)).2.2.2.2⟩

/-- C5: construction fails, with the range error, exactly when
`end_date < start_date`; otherwise it succeeds for every entry list,
producing the schedule with the filtered, deduplicated, sorted entries. -/
theorem C5_construction (sd ed : Date) (ms : List (Date × Option Time)) :
    (Date.ltB ed sd = true →
      Schedule.init sd ed ms = Except.error "end_date must be >= start_date") ∧
    (Date.ltB ed sd = false →
      Schedule.init sd ed ms = Except.ok ⟨sd, ed, entriesOf sd ed ms⟩) := by
  constructor
  · intro h
    unfold Schedule.init
    rw [if_pos h]
  · intro h
    unfold Schedule.init
    rw [if_neg (show ¬ Date.ltB ed sd = true by simp [h])]

/-- C5 witness: a reversed range fails with the range error, a valid
range constructs successfully. -/
theorem C5_construction_witness :
    Schedule.init ⟨2025, 9, 20⟩ ⟨2025, 9, 18⟩ [] =
      Except.error "end_date must be >= start_date" ∧
    Schedule.init ⟨2025, 9, 18⟩ ⟨2025, 9, 20⟩ [(⟨2025, 9, 19⟩, none)] =
      Except.ok ⟨⟨2025, 9, 18⟩, ⟨2025, 9, 20⟩,
        entriesOf ⟨2025, 9, 18⟩ ⟨2025, 9, 20⟩ [(⟨2025, 9, 19⟩, none)]⟩ :=
  ⟨(C5_construction ⟨2025, 9, 20⟩ ⟨2025, 9, 18⟩ []).1 (by decide),
    (C5_construction ⟨2025, 9, 18⟩ ⟨2025, 9, 20⟩ [(⟨2025, 9, 19⟩, none)]).2 (by decide)⟩

/-- C3: in a constructed schedule with stored entries `e0 :: rest`, the
first entry weighs 4.0, the last entry weighs 4.0, every other entry
weighs 2.0, and a schedule with exactly one stored entry totals exactly
4.0 (not 8.0). -/
theorem C3_base_weights (sd ed : Date) (ms : List (Date × Option Time)) (s : Schedule)
    (h : Schedule.init sd ed ms = Except.ok s)
    (e0 : Entry) (rest : List Entry) (hl : s.entries = e0 :: rest) :
    weightOf e0.d (rest.getLastD e0).d e0 = 4 ∧
    weightOf e0.d (rest.getLastD e0).d (rest.getLastD e0) = 4 ∧
    (∀ e ∈ s.entries, e ≠ e0 → e ≠ rest.getLastD e0 →
      weightOf e0.d (rest.getLastD e0).d e = 2) ∧
    (rest = [] → s.total_monitoring_hours = 4) := by
  obtain ⟨-, -, hent⟩ := init_ok h
  have hnd : (s.entries.map Entry.d).Nodup := by
    rw [hent]
    exact nodup_entriesOf_dates sd ed ms
  have hinj := List.inj_on_of_nodup_map hnd
  have he0 : e0 ∈ s.entries := by
    rw [hl]
    exact List.mem_cons_self _ _
  have hlast : rest.getLastD e0 ∈ s.entries := by
    rw [hl]
    exact List.getLastD_mem_cons _ _
  refine ⟨by simp [weightOf, base_hours], by simp [weightOf, base_hours], ?_, ?_⟩
  · intro e hes hne0 hnel
    have hd0 : e.d ≠ e0.d := fun hd => hne0 (hinj hes he0 hd)
    have hdl : e.d ≠ (rest.getLastD e0).d := fun hd => hnel (hinj hes hlast hd)
    unfold weightOf base_hours
    rw [if_neg]
    simp only [Bool.or_eq_true, decide_eq_true_eq]
    tauto
  · intro hr
    subst hr
    rw [total_eq_sumWeights s e0 [] hl]
    simpa using sumWeights_single e0

/-- C3 witness: in the two-entry schedule for 09/18-09/19 the first
stored entry weighs 4.0. -/
theorem C3_base_weights_witness :
    weightOf ⟨2025, 9, 18⟩ ⟨2025, 9, 19⟩ ⟨⟨2025, 9, 18⟩, none⟩ = 4 :=
  (C3_base_weights ⟨2025, 9, 18⟩ ⟨2025, 9, 19⟩
    [(⟨2025, 9, 18⟩, none), (⟨2025, 9, 19⟩, none)]
    ⟨⟨2025, 9, 18⟩, ⟨2025, 9, 19⟩, [⟨⟨2025, 9, 18⟩, none⟩, ⟨⟨2025, 9, 19⟩, none⟩]⟩
    rfl ⟨⟨2025, 9, 18⟩, none⟩ [⟨⟨2025, 9, 19⟩, none⟩] rfl).1

/-- C6: the stored time of each entry of a constructed schedule is the
one of the FIRST input pair carrying that date; later pairs with the
same date were discarded (first-write-wins). -/
theorem C6_first_write_wins (sd ed : Date) (ms : List (Date × Option Time))
    (s : Schedule) (h : Schedule.init sd ed ms = Except.ok s)
    (e : Entry) (he : e ∈ s.entries) :
    ms.find? (fun q => decide (q.1 = e.d)) = some (e.d, e.t) := by
  obtain ⟨-, -, hent⟩ := init_ok h
  rw [hent] at he
  exact (mem_buildByDay (mem_entriesOf he)).2

/-- C6 witness: with two pairs on 09/18/2025 (07:00 first, 18:00
second), the stored entry keeps 07:00, the first pair found. -/
theorem C6_first_write_wins_witness :
    ([((⟨2025, 9, 18⟩ : Date), some (⟨7, 0⟩ : Time)), (⟨2025, 9, 18⟩, some ⟨18, 0⟩)].find?
      fun q => decide (q.1 = (⟨2025, 9, 18⟩ : Date))) = some (⟨2025, 9, 18⟩, some ⟨7, 0⟩) :=
  C6_first_write_wins ⟨2025, 9, 18⟩ ⟨2025, 9, 18⟩
    [(⟨2025, 9, 18⟩, some ⟨7, 0⟩), (⟨2025, 9, 18⟩, some ⟨18, 0⟩)]
    ⟨⟨2025, 9, 18⟩, ⟨2025, 9, 18⟩, [⟨⟨2025, 9, 18⟩, some ⟨7, 0⟩⟩]⟩
    rfl ⟨⟨2025, 9, 18⟩, some ⟨7, 0⟩⟩ (by decide)

/-- C7: the stored entries of a constructed schedule are strictly
ascending by date (hence at most one entry per date), and every stored
date lies within `[start_date, end_date]`. -/
theorem C7_entries_invariant (sd ed : Date) (ms : List (Date × Option Time))
    (s : Schedule) (h : Schedule.init sd ed ms = Except.ok s) :
    s.entries.Pairwise (fun a b => Date.ltB a.d b.d = true) ∧
    (s.entries.map Entry.d).Nodup ∧
    ∀ e ∈ s.entries, Date.leB sd e.d = true ∧ Date.leB e.d ed = true := by
  obtain ⟨-, -, hent⟩ := init_ok h
  rw [hent]
  refine ⟨pairwise_entriesOf sd ed ms, nodup_entriesOf_dates sd ed ms, ?_⟩
  intro e he
  have hr := (mem_buildByDay (mem_entriesOf he)).1
  unfold inRange at hr
  rw [Bool.and_eq_true] at hr
  exact hr

/-- C7 witness: the single stored entry 09/19/2025 of a concrete
schedule lies within the range 09/18/2025 to 09/20/2025. -/
theorem C7_entries_invariant_witness :
    Date.leB ⟨2025, 9, 18⟩ ⟨2025, 9, 19⟩ = true ∧
    Date.leB ⟨2025, 9, 19⟩ ⟨2025, 9, 20⟩ = true :=
  (C7_entries_invariant ⟨2025, 9, 18⟩ ⟨2025, 9, 20⟩ [(⟨2025, 9, 19⟩, none)]
    ⟨⟨2025, 9, 18⟩, ⟨2025, 9, 20⟩, [⟨⟨2025, 9, 19⟩, none⟩]⟩ rfl).2.2
    ⟨⟨2025, 9, 19⟩, none⟩ (by decide)

/-- C8: `dry_time` is the whole-day ordinal difference floored at 0,
hence non-negative; with no stored entries all three hour totals are
0.0 while `dry_time` is still the day difference. -/
theorem C8_dry_time_and_empty (s : Schedule) :
    s.dry_time = max ((s.end_date.toOrdinal : Int) - (s.start_date.toOrdinal : Int)) 0 ∧
    0 ≤ s.dry_time ∧
    (s.entries = [] →
      s.monitoring_hours = 0 ∧ s.after_hours = 0 ∧ s.total_monitoring_hours = 0) := by
  refine ⟨rfl, le_max_right _ _, fun h => ?_⟩
  have hsp : s.split_hours = (0, 0) := by
    unfold Schedule.split_hours
    rw [h]
  unfold Schedule.monitoring_hours Schedule.after_hours Schedule.total_monitoring_hours
  rw [hsp]
  norm_num

/-- C8 witness: a schedule over 09/18-09/20 with no entries has all
hour totals 0 and `dry_time` 2. -/
theorem C8_dry_time_and_empty_witness :
    (⟨⟨2025, 9, 18⟩, ⟨2025, 9, 20⟩, []⟩ : Schedule).monitoring_hours = 0 ∧
    (⟨⟨2025, 9, 18⟩, ⟨2025, 9, 20⟩, []⟩ : Schedule).after_hours = 0 ∧
    (⟨⟨2025, 9, 18⟩, ⟨2025, 9, 20⟩, []⟩ : Schedule).total_monitoring_hours = 0 :=
  (C8_dry_time_and_empty ⟨⟨2025, 9, 18⟩, ⟨2025, 9, 20⟩, []⟩).2.2 rfl

/-- C9: the total equals normal plus after-hours, which equals the sum
of all per-entry base-hour weights, and all three totals are
non-negative. -/
theorem C9_total_decomposition (s : Schedule) :
    s.total_monitoring_hours = s.monitoring_hours + s.after_hours ∧
    s.total_monitoring_hours = (entryWeights s.entries).sum ∧
    0 ≤ s.monitoring_hours ∧ 0 ≤ s.after_hours ∧ 0 ≤ s.total_monitoring_hours := by
  have hm : s.monitoring_hours = s.split_hours.1 := rfl
  have ha : s.after_hours = s.split_hours.2 := rfl
  cases hl : s.entries with
  | nil =>
    have hsp : s.split_hours = (0, 0) := by
      unfold Schedule.split_hours
      rw [hl]
    unfold Schedule.total_monitoring_hours Schedule.monitoring_hours Schedule.after_hours
    rw [hsp]
    simp [entryWeights]
  | cons e0 rest =>
    have hsp := split_hours_eq s e0 rest hl
    have htot := total_eq_sumWeights s e0 rest hl
    refine ⟨rfl, ?_, ?_, ?_, ?_⟩
    · rw [htot]
      simp [entryWeights, sumWeights]
    · rw [hm, hsp]
      exact sumWeights_nonneg _ _ _
    · rw [ha, hsp]
      exact sumWeights_nonneg _ _ _
    · rw [htot]
      exact sumWeights_nonneg _ _ _

/-- C10: the total of a constructed schedule is 0.0 with no entries,
4.0 with one entry, and `2n + 4.0` with `n >= 2` entries, independent
of the normal/after-hours classification. -/
theorem C10_total_by_count (sd ed : Date) (ms : List (Date × Option Time)) (s : Schedule)
    (h : Schedule.init sd ed ms = Except.ok s) :
    (s.entries.length = 0 → s.total_monitoring_hours = 0) ∧
    (s.entries.length = 1 → s.total_monitoring_hours = 4) ∧
    (2 ≤ s.entries.length →
      s.total_monitoring_hours = 2 * (s.entries.length : ℚ) + 4) := by
  obtain ⟨-, -, hent⟩ := init_ok h
  have hnd : (s.entries.map Entry.d).Nodup := by
    rw [hent]
    exact nodup_entriesOf_dates sd ed ms
  refine ⟨?_, ?_, ?_⟩
  · intro h0
    have hl := List.length_eq_zero.mp h0
    have hsp : s.split_hours = (0, 0) := by
      unfold Schedule.split_hours
      rw [hl]
    unfold Schedule.total_monitoring_hours
    rw [hsp]
    norm_num
  · intro h1
    obtain ⟨e0, hl⟩ := List.length_eq_one.mp h1
    rw [total_eq_sumWeights s e0 [] hl]
    simpa using sumWeights_single e0
  · intro h2
    cases hl : s.entries with
    | nil =>
      rw [hl] at h2
      simp at h2
    | cons e0 rest =>
      have hne : rest ≠ [] := by
        intro hr
        rw [hl, hr] at h2
        simp at h2
      rw [hl] at hnd
      rw [total_eq_sumWeights s e0 rest hl, sumWeights_multi e0 rest hne hnd]

/-- C10 witness: the three-entry schedule over 09/18-09/20 totals
`2 * 3 + 4 = 10` hours. -/
theorem C10_total_by_count_witness :
    (⟨⟨2025, 9, 18⟩, ⟨2025, 9, 20⟩,
      [⟨⟨2025, 9, 18⟩, some ⟨7, 0⟩⟩, ⟨⟨2025, 9, 19⟩, some ⟨18, 0⟩⟩,
        ⟨⟨2025, 9, 20⟩, none⟩]⟩ : Schedule).total_monitoring_hours =
      2 * (((⟨⟨2025, 9, 18⟩, ⟨2025, 9, 20⟩,
        [⟨⟨2025, 9, 18⟩, some ⟨7, 0⟩⟩, ⟨⟨2025, 9, 19⟩, some ⟨18, 0⟩⟩,
          ⟨⟨2025, 9, 20⟩, none⟩]⟩ : Schedule).entries.length : ℕ) : ℚ) + 4 :=
  (C10_total_by_count ⟨2025, 9, 18⟩ ⟨2025, 9, 20⟩
    [(⟨2025, 9, 18⟩, some ⟨7, 0⟩), (⟨2025, 9, 19⟩, some ⟨18, 0⟩), (⟨2025, 9, 20⟩, none)]
    ⟨⟨2025, 9, 18⟩, ⟨2025, 9, 20⟩,
      [⟨⟨2025, 9, 18⟩, some ⟨7, 0⟩⟩, ⟨⟨2025, 9, 19⟩, some ⟨18, 0⟩⟩,
        ⟨⟨2025, 9, 20⟩, none⟩]⟩ rfl).2.2 (by decide)

/-- C4 (amended): `parse_date_time` returns a valid pair or an error
message, never both; a whitespace-only token yields the distinct
"Empty entry" error; a token with more than two whitespace-separated
parts yields the bad-entry error naming the `MM/DD/YYYY [HHMM]` format
provided its first part parses as a date (otherwise the invalid-date
error is reported first). -/
theorem C4_parse_contract (str : String) :
    ((∃ d t, parse_date_time str = (some d, t, none)) ∨
      (∃ msg, parse_date_time str = (none, none, some msg))) ∧
    (pyStrip str.data = [] → parse_date_time str = (none, none, some "Empty entry")) ∧
    (2 < (pySplit (pyStrip str.data)).length →
      strptimeDate ((pySplit (pyStrip str.data)).headD []) ≠ none →
      parse_date_time str =
        (none, none,
          some ("Bad entry '" ++ String.mk (pyStrip str.data) ++
            "'. Use 'MM/DD/YYYY [HHMM]'."))) := by
  refine ⟨?_, ?_, ?_⟩
  · simp only [parse_date_time]
    split
    · exact Or.inr ⟨_, rfl⟩
    · split
      · exact Or.inr ⟨_, rfl⟩
      · split
        · split
          · exact Or.inr ⟨_, rfl⟩
          · exact Or.inl ⟨_, _, rfl⟩
        · split
          · exact Or.inr ⟨_, rfl⟩
          · exact Or.inl ⟨_, _, rfl⟩
  · intro h
    simp only [parse_date_time]
    rw [if_pos h]
  · intro hlen hdate
    have hs : pyStrip str.data ≠ [] := by
      intro h0
      rw [h0] at hlen
      simp [pySplit, pySplitAux] at hlen
    simp only [parse_date_time]
    rw [if_neg hs]
    split
    · rename_i hd
      exact absurd hd hdate
    · rw [if_neg (by omega), if_pos hlen]

/-- C4 witness: `"09/18/2025 0700 x"` has three parts with a valid
leading date and is rejected with the bad-entry error that names the
`MM/DD/YYYY [HHMM]` format. -/
theorem C4_parse_contract_witness :
    2 < (pySplit (pyStrip ("09/18/2025 0700 x").data)).length ∧
    strptimeDate ((pySplit (pyStrip ("09/18/2025 0700 x").data)).headD []) ≠ none ∧
    parse_date_time "09/18/2025 0700 x" =
      (none, none,
        some ("Bad entry '" ++ String.mk (pyStrip ("09/18/2025 0700 x").data) ++
          "'. Use 'MM/DD/YYYY [HHMM]'.")) :=
  ⟨by decide, by decide,
    (C4_parse_contract "09/18/2025 0700 x").2.2 (by decide) (by decide)⟩

/-- C4 counterexample: `"1 2 3"` has three whitespace-separated parts
yet is rejected with the invalid-date error, not the bad-entry error:
the date is parsed before the part count is checked. -/
theorem C4_counterexample :
    (pySplit (pyStrip ("1 2 3").data)).length = 3 ∧
    parse_date_time "1 2 3" = (none, none, some "Invalid date '1'. Use MM/DD/YYYY.") ∧
    parse_date_time "1 2 3" ≠
      (none, none, some "Bad entry '1 2 3'. Use 'MM/DD/YYYY [HHMM]'.") :=
  ⟨by decide, by decide, by decide⟩

end ScheduleApp
